import Mathlib

/-!
Verification development for a desktop emulation of the VEX V5 display
subsystem.  The Rust sources are shallowly embedded: machine integers i32
become Int (all arithmetic in the verified fragment stays far from the i32
range), u32 colors become Nat, the row-major pixel buffer becomes a total
function from Int indices to colors (an index is row * WIDTH + column,
exactly as in the source), and fallible code (Rust panics from asserts,
slice-index checks and integer clamp preconditions) returns Option, with
none modelling the panic.
-/

namespace V5

/-- Width of the emulated screen in pixels (canvas.rs). -/
def WIDTH : Int := 480

/-- Height of the emulated screen in pixels (canvas.rs). -/
def HEIGHT : Int := 272

/-- Height of the header band at the top of the screen (canvas.rs). -/
def HEADER_HEIGHT : Int := 32

/-- Number of pixels in a buffer: WIDTH * HEIGHT (canvas.rs). -/
def BUFSZ : Int := WIDTH * HEIGHT

/-- Default background color (canvas.rs). -/
def DEFAULT_BG_COLOR : Nat := 0x000000

/-- Default foreground color (canvas.rs). -/
def DEFAULT_FG_COLOR : Nat := 0xFFFFFF

/-- Signed screen coordinates, as struct Point in canvas.rs. -/
structure Point where
  x : Int
  y : Int
deriving DecidableEq, Repr

/-- Rectangle given by two corners, as struct Rect(Point, Point) in canvas.rs.
The field p0 is the min corner (inclusive), p1 the max corner (exclusive). -/
structure Rect where
  p0 : Point
  p1 : Point
deriving DecidableEq, Repr

/-- Rust i32::clamp(lo, hi): panics (none) when hi < lo, otherwise clamps. -/
def clampI (x lo hi : Int) : Option Int :=
  if hi < lo then none else some (max lo (min x hi))

/-- Point::clamp_to from canvas.rs: clamps each coordinate into
the interval from the region min corner to its max corner minus one. -/
def Point.clamp_to (p : Point) (region : Rect) : Option Point := do
  let x ← clampI p.x region.p0.x (region.p1.x - 1)
  let y ← clampI p.y region.p0.y (region.p1.y - 1)
  pure { x := x, y := y }

/-- Point::is_inside from canvas.rs: half-open containment on both axes. -/
def Point.is_inside (p : Point) (region : Rect) : Prop :=
  (region.p0.x ≤ p.x ∧ p.x < region.p1.x) ∧ (region.p0.y ≤ p.y ∧ p.y < region.p1.y)

instance (p : Point) (r : Rect) : Decidable (p.is_inside r) := by
  unfold Point.is_inside
  exact inferInstance

/-- Rect::new from canvas.rs: swaps out-of-order corners pairwise per axis. -/
def Rect.new (x0 y0 x1 y1 : Int) : Rect :=
  let xs := if x0 > x1 then (x1, x0) else (x0, x1)
  let ys := if y0 > y1 then (y1, y0) else (y0, y1)
  { p0 := { x := xs.1, y := ys.1 }, p1 := { x := xs.2, y := ys.2 } }

/-- Rect::FULL_CLIP from canvas.rs. -/
def Rect.FULL_CLIP : Rect := Rect.new 0 0 WIDTH HEIGHT

/-- Rect::USER_CLIP from canvas.rs. -/
def Rect.USER_CLIP : Rect := Rect.new 0 HEADER_HEIGHT WIDTH HEIGHT

/-- Rect::HEADER_CLIP from canvas.rs. -/
def Rect.HEADER_CLIP : Rect := Rect.new 0 0 WIDTH HEADER_HEIGHT

/-- Rect::from_sdk from canvas.rs: adds the header height to both y
coordinates, normalizes, then increments the max corner on both axes to turn
the inclusive SDK corners into the half-open internal convention. -/
def Rect.from_sdk (x0 y0 x1 y1 : Int) : Rect :=
  let r := Rect.new x0 (y0 + HEADER_HEIGHT) x1 (y1 + HEADER_HEIGHT)
  { r with p1 := { x := r.p1.x + 1, y := r.p1.y + 1 } }

/-- Rect::clip_to from canvas.rs: clamps both corners independently into the
region (none models the clamp panic on a degenerate region). -/
def Rect.clip_to (r : Rect) (region : Rect) : Option Rect := do
  let a ← r.p0.clamp_to region
  let b ← r.p1.clamp_to region
  pure { p0 := a, p1 := b }

/-- Integers of the half-open range from a to b, in order (a Rust
half-open range iteration). -/
def intRangeEx (a b : Int) : List Int :=
  (List.range (b - a).toNat).map fun (k : Nat) => a + (k : Int)

/-- Rect::pixels from canvas.rs: all points of the half-open rectangle,
column by column. -/
def Rect.pixels (r : Rect) : List Point :=
  (intRangeEx r.p0.x r.p1.x).flatMap fun x =>
    (intRangeEx r.p0.y r.p1.y).map fun y => { x := x, y := y }

/-- Integers of the inclusive range from a to b, in order (a Rust
RangeInclusive iteration). -/
def intRangeIncl (a b : Int) : List Int := intRangeEx a (b + 1)

/-- Containment of all four corner coordinates in the full surface; this is
the invariant the canvas clip region always satisfies (it is FULL_CLIP
initially and every update goes through set_clip_region, which clips to
FULL_CLIP). Under it, buffer indices touched by clipped drawing stay within
the allocation, so the Rust code never hits an out-of-bounds panic. -/
def Rect.withinFull (r : Rect) : Prop :=
  0 ≤ r.p0.x ∧ 0 ≤ r.p0.y ∧ r.p1.x ≤ WIDTH ∧ r.p1.y ≤ HEIGHT

instance (r : Rect) : Decidable r.withinFull := by
  unfold Rect.withinFull
  exact inferInstance

/-- Function clamp_range from canvas.rs, on inclusive integer ranges
represented as pairs (start, end).  The outer Option models the two asserts:
none is the assert panic when either range is inverted.  The inner Option is
the Rust return value: none when the ranges are disjoint. -/
def clamp_range (source region : Int × Int) : Option (Option (Int × Int)) :=
  if ¬ source.1 ≤ source.2 then none
  else if ¬ region.1 ≤ region.2 then none
  else if source.1 > region.2 ∨ source.2 < region.1 then some none
  else some (some
    ((if source.1 < region.1 then region.1 else source.1),
     (if source.2 > region.2 then region.2 else source.2)))

/-- Drawing state of the canvas, as struct CanvasState in canvas.rs. -/
structure CanvasState where
  fg_color : Nat
  bg_color : Nat
  pen_size : Nat
  clip_region : Rect
  font_name : String
  font_scale : Nat × Nat
deriving DecidableEq, Repr

/-- CanvasState::swap_colors from canvas.rs. -/
def CanvasState.swap_colors (s : CanvasState) : CanvasState :=
  { s with fg_color := s.bg_color, bg_color := s.fg_color }

/-- CanvasState::set_clip_region from canvas.rs: the incoming region is
clipped to FULL_CLIP before being stored.  FULL_CLIP is non-degenerate, so
the clip can never panic here; the Option is kept for uniformity. -/
def CanvasState.set_clip_region (s : CanvasState) (region : Rect) : Option CanvasState :=
  (region.clip_to Rect.FULL_CLIP).map fun r => { s with clip_region := r }

/-- The canvas, as struct Canvas in canvas.rs.  The pixel buffer is a total
function from the row-major index (y * WIDTH + x) to the stored color.  The
transient font_buffer is not part of the state here: its contents are
produced by the external font_kit rasterizer and enter the model as the
coverage argument of draw_string_composite. -/
structure Canvas where
  buffer : Int → Nat
  state : CanvasState
  saved_state : CanvasState

/-- Canvas::new from canvas.rs: zeroed buffer and the default state. -/
def Canvas.new : Canvas :=
  let state : CanvasState :=
    { fg_color := DEFAULT_FG_COLOR
      bg_color := DEFAULT_BG_COLOR
      clip_region := Rect.FULL_CLIP
      pen_size := 1
      font_name := "monospace"
      font_scale := (1, 3) }
  { buffer := fun _ => 0, state := state, saved_state := state }

/-- Canvas::save from canvas.rs. -/
def Canvas.save (c : Canvas) : Canvas :=
  { c with saved_state := c.state }

/-- Canvas::restore from canvas.rs. -/
def Canvas.restore (c : Canvas) : Canvas :=
  { c with state := c.saved_state }

/-- Sequence of buffer stores: each list element (i, v) stores color v at
index i, later stores win.  This is the meaning of every pixel-writing loop
in canvas.rs and display.rs. -/
def applyWrites (buf : Int → Nat) (ws : List (Int × Nat)) : Int → Nat :=
  ws.foldl (fun b w => fun i => if i = w.1 then w.2 else b i) buf

/-- Canvas::write_pixel from canvas.rs: unconditional store at the row-major
index of the point. -/
def Canvas.write_pixel (c : Canvas) (p : Point) (color : Nat) : Canvas :=
  { c with buffer := fun i => if i = p.y * WIDTH + p.x then color else c.buffer i }

/-- Canvas::set_pixel from canvas.rs: write fg_color at the point unless it
is outside the clip region. -/
def Canvas.set_pixel (c : Canvas) (p : Point) : Canvas :=
  if p.is_inside c.state.clip_region then c.write_pixel p c.state.fg_color else c

/-- Canvas::draw_horizontal_line from canvas.rs.  The inclusive x range is a
pair (start, end).  Returns none when clamp_range panics. -/
def Canvas.draw_horizontal_line (c : Canvas) (x_range : Int × Int) (y : Int) : Option Canvas :=
  let clip := c.state.clip_region
  if ¬ (clip.p0.y ≤ y ∧ y < clip.p1.y) then some c
  else
    match clamp_range x_range (clip.p0.x, clip.p1.x - 1) with
    | none => none
    | some none => some c
    | some (some r) =>
      some { c with buffer := (applyWrites c.buffer
        ((intRangeIncl r.1 r.2).map fun x => (y * WIDTH + x, c.state.fg_color))) }

/-- Canvas::draw_vertical_line from canvas.rs, symmetric to the horizontal
case. -/
def Canvas.draw_vertical_line (c : Canvas) (x : Int) (y_range : Int × Int) : Option Canvas :=
  let clip := c.state.clip_region
  if ¬ (clip.p0.x ≤ x ∧ x < clip.p1.x) then some c
  else
    match clamp_range y_range (clip.p0.y, clip.p1.y - 1) with
    | none => none
    | some none => some c
    | some (some r) =>
      some { c with buffer := (applyWrites c.buffer
        ((intRangeIncl r.1 r.2).map fun y => (y * WIDTH + x, c.state.fg_color))) }

/-- Canvas::draw_line from canvas.rs.  The Bresenham iterator comes from the
external line_drawing crate; its emitted points for the segment from start
to stop are passed in as the list bres. -/
def Canvas.draw_line (c : Canvas) (start stop : Point) (bres : List (Int × Int)) : Canvas :=
  bres.foldl (fun c q => c.set_pixel { x := q.1, y := q.2 }) c

/-- Canvas::fill_rect from canvas.rs: clip the bounds to the clip region,
then paint every pixel of the result with fg_color. -/
def Canvas.fill_rect (c : Canvas) (bounds : Rect) : Option Canvas :=
  (bounds.clip_to c.state.clip_region).map fun b =>
    { c with buffer := (applyWrites c.buffer
        (b.pixels.map fun p => (p.y * WIDTH + p.x, c.state.fg_color))) }

/-- One step of the extent-collection loop in Canvas::fill_circle: given the
current per-row extents, a circle point (dx, i) widens row i leftwards when
dx is negative and rightwards otherwise.  Rust indexes the vector with
i as usize, so a negative or out-of-range i is an index panic (none). -/
def updateLines (lines : List (Int × Int)) (cx : Int) (q : Int × Int) : Option (List (Int × Int)) :=
  let x := cx + q.1
  if h : 0 ≤ q.2 ∧ q.2.toNat < lines.length then
    let cur := lines.get ⟨q.2.toNat, h.2⟩
    if q.1 < 0 then
      if x < cur.1 then some (lines.set q.2.toNat (x, cur.2)) else some lines
    else
      if x > cur.2 then some (lines.set q.2.toNat (cur.1, x)) else some lines
  else none

/-- Canvas::fill_circle from canvas.rs.  The Bresenham circle iterator for
center (0, radius) and the given radius comes from the external line_drawing
crate; its emitted (dx, i) points are passed in as circlePts.  A zero radius
first does a set_pixel of the center (with no early return, exactly as in
the source), the extents are collected into one inclusive span per row, and
each span is drawn as a horizontal line. -/
def Canvas.fill_circle (c : Canvas) (center : Point) (radius : Nat)
    (circlePts : List (Int × Int)) : Option Canvas :=
  let c := if radius = 0 then c.set_pixel center else c
  let num_lines := 1 + radius * 2
  let lines0 : List (Int × Int) := List.replicate num_lines (center.x, center.x)
  match circlePts.foldl (fun acc q => acc.bind fun ls => updateLines ls center.x q)
      (some lines0) with
  | none => none
  | some lines =>
    lines.enum.foldlM
      (fun canvas li =>
        canvas.draw_horizontal_line (li.2.1, li.2.2) (center.y - radius + li.1))
      c

/-- Write list of Canvas::copy_rect from canvas.rs: destination rows and
columns of the clipped rectangle are enumerated, and the source is read at
row index times stride plus column index, both offsets counted from the
min corner of the clipped rectangle. -/
def gridWrites (b : Rect) (source : Nat → Nat) (stride : Nat) : List (Int × Nat) :=
  (intRangeEx b.p0.y b.p1.y).enum.flatMap fun ri =>
    (intRangeEx b.p0.x b.p1.x).enum.map fun ci =>
      (ri.2 * WIDTH + ci.2, source (ri.1 * stride + ci.1))

/-- Canvas::copy_rect from canvas.rs: clip the bounds to the clip region,
then copy pixels from the caller-provided source buffer (a flat array read
at non-negative offsets, modelled as a function from Nat). -/
def Canvas.copy_rect (c : Canvas) (bounds : Rect) (source : Nat → Nat)
    (stride : Nat) : Option Canvas :=
  (bounds.clip_to c.state.clip_region).map fun b =>
    { c with buffer := applyWrites c.buffer (gridWrites b source stride) }

/-- Source-over blend of one pixel from the compositing loop at the end of
Canvas::draw_string: channels are the three low bytes of the u32 color, and
dst * (255 - coverage) + fg * coverage, divided by 255 at the end, is
computed per channel.  opacity is a u8, so it is at most 255 here. -/
def blendPixel (dst : Nat) (opacity : Nat) (fg : Nat) : Nat :=
  let cr := fg / 65536 % 256
  let cg := fg / 256 % 256
  let cb := fg % 256
  let r := dst / 65536 % 256
  let g := dst / 256 % 256
  let b := dst % 256
  let transparency := 255 - opacity
  let r := (r * transparency + cr * opacity) / 255
  let g := (g * transparency + cg * opacity) / 255
  let b := (b * transparency + cb * opacity) / 255
  (r % 256) * 65536 + (g % 256) * 256 + (b % 256)

/-- Compositing phase of Canvas::draw_string from canvas.rs.  The earlier
phase rasterizes the glyphs of the string into the canvas-sized font_buffer via
the external font_kit rasterizer; its resulting coverage values (u8 per
pixel, modelled mod 256) enter here as the coverage argument.  The loop then
blends every one of the BUFSZ buffer pixels against the coverage value at
the same index; the clip region plays no part. -/
def Canvas.draw_string_composite (c : Canvas) (coverage : Int → Nat) : Canvas :=
  { c with buffer := fun i =>
      if 0 ≤ i ∧ i < BUFSZ then blendPixel (c.buffer i) (coverage i % 256) c.state.fg_color
      else c.buffer i }

/-- Shared display state, as struct SimDisplay in display.rs. -/
structure SimDisplay where
  buffer : Int → Nat
  fullscreen : Bool
  autorender : Bool

/-- SimDisplay::new from display.rs. -/
def SimDisplay.new : SimDisplay :=
  { buffer := fun _ => 0, fullscreen := false, autorender := true }

/-- SimDisplay::blit_rect from display.rs: copy every pixel inside the mask
from the source buffer at the same row-major index. -/
def SimDisplay.blit_rect (d : SimDisplay) (source : Int → Nat) (mask : Rect) : SimDisplay :=
  { d with buffer := (applyWrites d.buffer
      (mask.pixels.map fun p => (p.y * WIDTH + p.x, source (p.y * WIDTH + p.x)))) }

/-- SimDisplay::render_user_canvas from display.rs: blit the canvas buffer
through the full mask when fullscreen, else through the user mask. -/
def SimDisplay.render_user_canvas (d : SimDisplay) (canvas : Canvas) : SimDisplay :=
  d.blit_rect canvas.buffer (if d.fullscreen then Rect.FULL_CLIP else Rect.USER_CLIP)

/-- SimDisplay::set_autorender from display.rs. -/
def SimDisplay.set_autorender (d : SimDisplay) (autorender : Bool) : SimDisplay :=
  { d with autorender := autorender }

/-- Rust u32-to-i32 as-cast: reinterpret the low 32 bits as twos
complement. -/
def u32_as_i32 (n : Nat) : Int :=
  let m : Nat := n % 2 ^ 32
  if m < 2 ^ 31 then (m : Int) else (m : Int) - 2 ^ 32

/-- Swap of fg and bg on the live state, as canvas.state.swap_colors() in
sdk/display.rs. -/
def Canvas.swapColors (c : Canvas) : Canvas :=
  { c with state := c.state.swap_colors }

/-- Entry point vexDisplayPixelSet from sdk/display.rs: casts the u32
coordinates to i32, adds the header height to y, and sets the pixel. -/
def vexDisplayPixelSet (x y : Nat) (c : Canvas) : Canvas :=
  c.set_pixel { x := u32_as_i32 x, y := u32_as_i32 y + HEADER_HEIGHT }

/-- Entry point vexDisplayPixelClear from sdk/display.rs: swap colors, set
the pixel (now painting with the old background color), swap back. -/
def vexDisplayPixelClear (x y : Nat) (c : Canvas) : Canvas :=
  ((c.swapColors).set_pixel { x := u32_as_i32 x, y := u32_as_i32 y + HEADER_HEIGHT }).swapColors

/-- Entry point vexDisplayLineClear from sdk/display.rs: swap colors, draw
the line with the header offset added to both y coordinates, swap back.
bres is the point list of the external Bresenham iterator for the offset
segment. -/
def vexDisplayLineClear (x1 y1 x2 y2 : Int) (bres : List (Int × Int)) (c : Canvas) : Canvas :=
  ((c.swapColors).draw_line { x := x1, y := y1 + HEADER_HEIGHT }
    { x := x2, y := y2 + HEADER_HEIGHT } bres).swapColors

/-- Entry point vexDisplayRectClear from sdk/display.rs: swap colors, fill
the rectangle obtained through Rect::from_sdk, swap back.  A fill panic
(none) propagates before the second swap, exactly as in Rust. -/
def vexDisplayRectClear (x1 y1 x2 y2 : Int) (c : Canvas) : Option Canvas :=
  ((c.swapColors).fill_rect (Rect.from_sdk x1 y1 x2 y2)).map fun c2 => c2.swapColors

/-- Entry point vexDisplayCircleClear from sdk/display.rs: swap colors, fill
the circle at the header-offset center with the radius clamped to
non-negative, swap back. -/
def vexDisplayCircleClear (xc yc radius : Int) (circlePts : List (Int × Int))
    (c : Canvas) : Option Canvas :=
  ((c.swapColors).fill_circle { x := xc, y := yc + HEADER_HEIGHT }
    (max radius 0).toNat circlePts).map fun c2 => c2.swapColors

/-- Entry point vexDisplayClipRegionSet from sdk/display.rs: builds the
region as Rect::new(x1, y1, x2 + 1, y2 + 1) and stores it through
set_clip_region.  Note that, unlike the other entry points, no header
offset is added to the y coordinates here. -/
def vexDisplayClipRegionSet (x1 y1 x2 y2 : Int) (c : Canvas) : Option Canvas :=
  let region := Rect.new x1 y1 (x2 + 1) (y2 + 1)
  (c.state.set_clip_region region).map fun s => { c with state := s }

/-- Entry point vexDisplayRender from sdk/display.rs.  The global SIM_APP is
set when the windowing thread starts; sim_app none models the unstarted
state, in which the expect call panics (the error value) before anything
else happens.  Otherwise autorender is disabled and the user canvas is
rendered into the display.  bVsyncWait only chooses whether the call
additionally blocks on the frame condition variable (run_synced), which has
no effect on the display state modelled here. -/
def vexDisplayRender (sim_app : Option Unit) (bVsyncWait : Bool) (canvas : Canvas)
    (display : SimDisplay) : Except String SimDisplay :=
  match sim_app with
  | none => Except.error panicNoRenderThread
  | some _ =>
    let do_render := fun (d : SimDisplay) =>
      (d.set_autorender false).render_user_canvas canvas
    Except.ok (do_render display)
where
  /-- Message of the expect panic in vexDisplayRender. -/
  panicNoRenderThread : String :=
    "Attempted to dispatch render without an active render thread"

/-! Helper lemmas about ranges and write sequences. -/

/-- Membership in a half-open integer range list. -/
theorem mem_intRangeEx {a b x : Int} : x ∈ intRangeEx a b ↔ a ≤ x ∧ x < b := by
  simp only [intRangeEx, List.mem_map, List.mem_range]
  constructor
  · rintro ⟨k, hk, rfl⟩
    omega
  · rintro ⟨h1, h2⟩
    exact ⟨(x - a).toNat, by omega, by omega⟩

/-- The half-open integer range list has no duplicates. -/
theorem nodup_intRangeEx (a b : Int) : (intRangeEx a b).Nodup := by
  refine List.Nodup.map ?_ (List.nodup_range _)
  intro k1 k2 h
  have h2 : a + (k1 : Int) = a + (k2 : Int) := h
  omega

/-- Element lookup in a half-open integer range list. -/
theorem getElem?_intRangeEx (a b : Int) (k : Nat) :
    (intRangeEx a b)[k]? = if (k : Int) < b - a then some (a + k) else none := by
  unfold intRangeEx
  rw [List.getElem?_map]
  by_cases h : k < (b - a).toNat
  · rw [List.getElem?_range h, if_pos (by omega)]
    rfl
  · rw [List.getElem?_eq_none (by simpa using h), if_neg (by omega)]
    rfl

/-- Membership in the enumeration of a half-open integer range list. -/
theorem mem_enum_intRangeEx {a b : Int} {i : Nat} {x : Int} :
    (i, x) ∈ (intRangeEx a b).enum ↔ (i : Int) < b - a ∧ x = a + i := by
  rw [List.mk_mem_enum_iff_getElem?, getElem?_intRangeEx]
  by_cases h : (i : Int) < b - a
  · rw [if_pos h]
    constructor
    · intro he
      exact ⟨h, (Option.some.inj he).symm⟩
    · intro he
      rw [he.2]
  · rw [if_neg h]
    constructor
    · intro he
      cases he
    · intro he
      exact absurd he.1 h

/-- A sequence of stores with pairwise distinct target indices evaluates, at
an index it never stores to, to the original buffer. -/
theorem applyWrites_not_mem (ws : List (Int × Nat)) (buf : Int → Nat) (k : Int)
    (h : ∀ w ∈ ws, w.1 ≠ k) : applyWrites buf ws k = buf k := by
  induction ws generalizing buf with
  | nil => rfl
  | cons w ws ih =>
    have hw : w.1 ≠ k := h w (by simp)
    have := ih (fun i => if i = w.1 then w.2 else buf i) (fun w2 hw2 => h w2 (by simp [hw2]))
    simpa [applyWrites, if_neg (by omega : ¬ k = w.1)] using this

/-- A sequence of stores with pairwise distinct target indices evaluates, at
a stored index, to the stored value. -/
theorem applyWrites_mem (ws : List (Int × Nat)) (buf : Int → Nat) (k : Int) (v : Nat)
    (hnd : ws.Pairwise fun w1 w2 => w1.1 ≠ w2.1) (hm : (k, v) ∈ ws) :
    applyWrites buf ws k = v := by
  induction ws generalizing buf with
  | nil => cases hm
  | cons w ws ih =>
    rcases List.mem_cons.mp hm with h | h
    · cases h
      have hkey : ∀ w2 ∈ ws, w2.1 ≠ k := by
        intro w2 hw2
        have h3 := (List.pairwise_cons.mp hnd).1 w2 hw2
        exact fun hc => h3 hc.symm
      have hrest := applyWrites_not_mem ws (fun i => if i = k then v else buf i) k hkey
      have hval : applyWrites (fun i => if i = k then v else buf i) ws k = v := by
        rw [hrest]
        simp
      show applyWrites buf ((k, v) :: ws) k = v
      rw [applyWrites, List.foldl_cons]
      exact hval
    · have h2 := ih (fun i => if i = w.1 then w.2 else buf i) (List.pairwise_cons.mp hnd).2 h
      show applyWrites buf (w :: ws) k = v
      rw [applyWrites, List.foldl_cons]
      exact h2

/-! Claim theorems. -/

/-- C4 counterexample: the full-surface rectangle lies within the surface
(half-open corners within bounds), yet clip_to FULL_CLIP shrinks its max
corner by one on each axis, so the claimed identity fails. -/
theorem C4_cex_clip_to_full_shrinks_edge_rect :
    (Rect.new 0 0 WIDTH HEIGHT).withinFull ∧
    (Rect.new 0 0 WIDTH HEIGHT).clip_to Rect.FULL_CLIP ≠ some (Rect.new 0 0 WIDTH HEIGHT) := by
  decide

/-- C4 amended: clipping a rectangle to the full surface is the identity
exactly when all four corner coordinates already lie in the clamp range
0..WIDTH-1 by 0..HEIGHT-1; since clamp_to clamps the exclusive max corner
into the same inclusive range as the min corner, a rectangle whose max
corner touches WIDTH or HEIGHT is shrunk even though it lies within the
surface. -/
theorem C4_clip_to_full_identity_iff (R : Rect) :
    R.clip_to Rect.FULL_CLIP = some R ↔
      (0 ≤ R.p0.x ∧ R.p0.x ≤ WIDTH - 1 ∧ 0 ≤ R.p0.y ∧ R.p0.y ≤ HEIGHT - 1 ∧
       0 ≤ R.p1.x ∧ R.p1.x ≤ WIDTH - 1 ∧ 0 ≤ R.p1.y ∧ R.p1.y ≤ HEIGHT - 1) := by
  have hfull : Rect.FULL_CLIP = { p0 := { x := 0, y := 0 }, p1 := { x := WIDTH, y := HEIGHT } } := by
    decide
  rw [hfull]
  simp only [Rect.clip_to, Point.clamp_to, clampI, WIDTH, HEIGHT]
  norm_num [Option.bind_eq_bind, Option.bind_some]
  constructor
  · intro h
    have h0 := congrArg Rect.p0 h
    have h1 := congrArg Rect.p1 h
    have h0x := congrArg Point.x h0
    have h0y := congrArg Point.y h0
    have h1x := congrArg Point.x h1
    have h1y := congrArg Point.y h1
    simp only at h0x h0y h1x h1y
    omega
  · intro h
    have e0x : max 0 (min R.p0.x 479) = R.p0.x := by omega
    have e0y : max 0 (min R.p0.y 271) = R.p0.y := by omega
    have e1x : max 0 (min R.p1.x 479) = R.p1.x := by omega
    have e1y : max 0 (min R.p1.y 271) = R.p1.y := by omega
    rw [e0x, e0y, e1x, e1y]

/-- C5: the code evaluated at the failing input.  vexDisplayClipRegionSet
with user rectangle (0, 0)..(10, 10) stores clip region (0,0)..(11,11): the
inclusive max corner is converted to half-open, but no header-band height is
added to the y coordinates, whereas Rect.from_sdk (used by every other
rectangle-taking entry point) and vexDisplayPixelSet both add
HEADER_HEIGHT. -/
theorem C5_clip_region_set_missing_header_offset :
    (vexDisplayClipRegionSet 0 0 10 10 Canvas.new).map (fun c => c.state.clip_region)
      = some { p0 := { x := 0, y := 0 }, p1 := { x := 11, y := 11 } }
    ∧ Rect.from_sdk 0 0 10 10
      = { p0 := { x := 0, y := 0 + HEADER_HEIGHT }, p1 := { x := 11, y := 11 + HEADER_HEIGHT } }
    ∧ (vexDisplayPixelSet 5 7 Canvas.new).buffer ((7 + HEADER_HEIGHT) * WIDTH + 5)
      = DEFAULT_FG_COLOR := by
  decide

/-- C7: after save, an arbitrary replacement of the live state, and restore,
every field of the live state is back to its pre-mutation value; and the
snapshot slot is single, so a second save overwrites the first and a
subsequent restore yields the second saved state. -/
theorem C7_save_restore_round_trip (c : Canvas) (s2 : CanvasState) :
    ({ c.save with state := s2 }).restore.state = c.state
    ∧ ({ c.save with state := s2 }).save.saved_state = s2
    ∧ ({ c.save with state := s2 }).save.restore.state = s2 := by
  exact ⟨rfl, rfl, rfl⟩

/-- C9: with no windowing thread started (sim_app not yet set), either
variant of vexDisplayRender hits the expect on SIM_APP.get() and panics with
its message, rather than returning normally. -/
theorem C9_render_without_window_thread_panics (b : Bool) (canvas : Canvas)
    (display : SimDisplay) :
    vexDisplayRender none b canvas display
      = Except.error vexDisplayRender.panicNoRenderThread := by
  rfl

/-- Canvas used in the C2 counterexample: its clip region has an empty x
span but a non-empty y span, and is reachable through set_clip_region (the
second conjunct of the counterexample shows this). -/
def degenerateClipCanvas : Canvas :=
  { Canvas.new with state :=
    { Canvas.new.state with clip_region :=
      { p0 := { x := 5, y := 0 }, p1 := { x := 5, y := 100 } } } }

/-- C2 counterexample: clamp_range asserts (panics, modelled as none) on an
inverted region rather than returning an empty intersection; the degenerate
clip region with an empty x span is reachable through set_clip_region; and
draw_horizontal_line on such a clip region panics instead of silently
drawing nothing, because it passes the inverted range p0.x..=(p1.x - 1) to
clamp_range. -/
theorem C2_cex_clamp_range_panics_on_inverted :
    clamp_range (0, 1) (5, 4) = none
    ∧ (Canvas.new.state.set_clip_region (Rect.new 5 0 5 100)).map (fun s => s.clip_region)
        = some { p0 := { x := 5, y := 0 }, p1 := { x := 5, y := 100 } }
    ∧ (degenerateClipCanvas.draw_horizontal_line (0, 10) 50).isSome = false := by
  refine ⟨by decide, by decide, ?_⟩
  rfl

/-- Canvas with a clip region whose y span is empty but whose x span is
non-empty; it is reachable through set_clip_region applied to
Rect.new 0 5 100 5, mirroring the x-degenerate case above. -/
def degenerateClipCanvasY : Canvas :=
  { Canvas.new with state :=
    { Canvas.new.state with clip_region :=
      { p0 := { x := 0, y := 5 }, p1 := { x := 100, y := 5 } } } }

/-- C2 amended: for inclusive ranges whose start does not exceed their end,
clamp_range returns, without panicking, the intersection or the empty result
when disjoint; it panics via assert when either range is inverted.
Consequently draw_horizontal_line and draw_vertical_line silently draw
nothing (the canvas is returned unchanged) when the fixed coordinate is
outside the clip region on its axis or when the clamp against the clip span
on the moving axis is disjoint, and they return without panicking whenever
the moving-axis clip span is non-empty (a single-pixel span included); but
they panic, rather than silently drawing nothing, when that span is empty
while the fixed coordinate lies inside the clip span on its axis. -/
theorem C2_clamp_range_amended :
    (∀ s r : Int × Int, s.1 ≤ s.2 → r.1 ≤ r.2 →
        clamp_range s r = some (if r.2 < s.1 ∨ s.2 < r.1 then none
          else some (max s.1 r.1, min s.2 r.2)))
    ∧ (∀ s r : Int × Int, ¬ (s.1 ≤ s.2 ∧ r.1 ≤ r.2) →
        clamp_range s r = none)
    ∧ (∀ (c : Canvas) (xr : Int × Int) (y : Int),
        ¬ (c.state.clip_region.p0.y ≤ y ∧ y < c.state.clip_region.p1.y) →
        c.draw_horizontal_line xr y = some c)
    ∧ (∀ (c : Canvas) (xr : Int × Int) (y : Int),
        c.state.clip_region.p0.y ≤ y → y < c.state.clip_region.p1.y →
        xr.1 ≤ xr.2 → c.state.clip_region.p0.x < c.state.clip_region.p1.x →
        (c.state.clip_region.p1.x - 1 < xr.1 ∨ xr.2 < c.state.clip_region.p0.x) →
        c.draw_horizontal_line xr y = some c)
    ∧ (∀ (c : Canvas) (xr : Int × Int) (y : Int),
        c.state.clip_region.p0.x = c.state.clip_region.p1.x →
        c.state.clip_region.p0.y ≤ y → y < c.state.clip_region.p1.y →
        c.draw_horizontal_line xr y = none)
    ∧ (∀ (c : Canvas) (xr : Int × Int) (y : Int), xr.1 ≤ xr.2 →
        c.state.clip_region.p0.x < c.state.clip_region.p1.x →
        (c.draw_horizontal_line xr y).isSome = true)
    ∧ (∀ (c : Canvas) (x : Int) (yr : Int × Int),
        ¬ (c.state.clip_region.p0.x ≤ x ∧ x < c.state.clip_region.p1.x) →
        c.draw_vertical_line x yr = some c)
    ∧ (∀ (c : Canvas) (x : Int) (yr : Int × Int),
        c.state.clip_region.p0.x ≤ x → x < c.state.clip_region.p1.x →
        yr.1 ≤ yr.2 → c.state.clip_region.p0.y < c.state.clip_region.p1.y →
        (c.state.clip_region.p1.y - 1 < yr.1 ∨ yr.2 < c.state.clip_region.p0.y) →
        c.draw_vertical_line x yr = some c)
    ∧ (∀ (c : Canvas) (x : Int) (yr : Int × Int),
        c.state.clip_region.p0.y = c.state.clip_region.p1.y →
        c.state.clip_region.p0.x ≤ x → x < c.state.clip_region.p1.x →
        c.draw_vertical_line x yr = none)
    ∧ (∀ (c : Canvas) (x : Int) (yr : Int × Int), yr.1 ≤ yr.2 →
        c.state.clip_region.p0.y < c.state.clip_region.p1.y →
        (c.draw_vertical_line x yr).isSome = true) := by
  refine ⟨?_, ?_, ?_, ?_, ?_, ?_, ?_, ?_, ?_, ?_⟩
  · intro s r h1 h2
    have hb : (if s.1 < r.1 then r.1 else s.1) = max s.1 r.1 := by
      rcases lt_or_ge s.1 r.1 with h | h
      · rw [if_pos h, max_eq_right h.le]
      · rw [if_neg (not_lt.mpr h), max_eq_left h]
    have he : (if s.2 > r.2 then r.2 else s.2) = min s.2 r.2 := by
      rcases lt_or_ge r.2 s.2 with h | h
      · rw [if_pos h, min_eq_right h.le]
      · rw [if_neg (not_lt.mpr h), min_eq_left h]
    unfold clamp_range
    rw [if_neg (by omega), if_neg (by omega), hb, he]
    by_cases hd : s.1 > r.2 ∨ s.2 < r.1
    · rw [if_pos hd, if_pos hd]
    · rw [if_neg hd, if_neg hd]
  · intro s r h
    unfold clamp_range
    by_cases h1 : s.1 ≤ s.2
    · rw [if_neg (by omega), if_pos (by omega)]
    · rw [if_pos h1]
  · intro c xr y hy
    simp only [Canvas.draw_horizontal_line]
    rw [if_pos hy]
  · intro c xr y hy1 hy2 hs hspan hd
    have hcr : clamp_range xr (c.state.clip_region.p0.x, c.state.clip_region.p1.x - 1)
        = some none := by
      simp only [clamp_range]
      rw [if_neg (by omega), if_neg (by omega), if_pos (by omega)]
    simp only [Canvas.draw_horizontal_line]
    rw [if_neg (by omega), hcr]
  · intro c xr y hx hy1 hy2
    have hcr : clamp_range xr (c.state.clip_region.p0.x, c.state.clip_region.p1.x - 1)
        = none := by
      simp only [clamp_range]
      by_cases hs : xr.1 ≤ xr.2
      · rw [if_neg (by omega), if_pos (by omega)]
      · rw [if_pos (by omega)]
    simp only [Canvas.draw_horizontal_line]
    rw [if_neg (by omega), hcr]
  · intro c xr y h1 h2
    simp only [Canvas.draw_horizontal_line]
    by_cases hy : c.state.clip_region.p0.y ≤ y ∧ y < c.state.clip_region.p1.y
    · rw [if_neg (by omega)]
      have hcr : ∃ t, clamp_range xr (c.state.clip_region.p0.x, c.state.clip_region.p1.x - 1)
          = some t := by
        simp only [clamp_range]
        rw [if_neg (by omega), if_neg (by omega)]
        by_cases hd : xr.1 > c.state.clip_region.p1.x - 1 ∨ xr.2 < c.state.clip_region.p0.x
        · rw [if_pos hd]
          exact ⟨none, rfl⟩
        · rw [if_neg hd]
          exact ⟨_, rfl⟩
      rcases hcr with ⟨t, ht⟩
      rw [ht]
      cases t
      · rfl
      · rfl
    · rw [if_pos (by omega)]
      rfl
  · intro c x yr hx
    simp only [Canvas.draw_vertical_line]
    rw [if_pos hx]
  · intro c x yr hx1 hx2 hs hspan hd
    have hcr : clamp_range yr (c.state.clip_region.p0.y, c.state.clip_region.p1.y - 1)
        = some none := by
      simp only [clamp_range]
      rw [if_neg (by omega), if_neg (by omega), if_pos (by omega)]
    simp only [Canvas.draw_vertical_line]
    rw [if_neg (by omega), hcr]
  · intro c x yr hy hx1 hx2
    have hcr : clamp_range yr (c.state.clip_region.p0.y, c.state.clip_region.p1.y - 1)
        = none := by
      simp only [clamp_range]
      by_cases hs : yr.1 ≤ yr.2
      · rw [if_neg (by omega), if_pos (by omega)]
      · rw [if_pos (by omega)]
    simp only [Canvas.draw_vertical_line]
    rw [if_neg (by omega), hcr]
  · intro c x yr h1 h2
    simp only [Canvas.draw_vertical_line]
    by_cases hy : c.state.clip_region.p0.x ≤ x ∧ x < c.state.clip_region.p1.x
    · rw [if_neg (by omega)]
      have hcr : ∃ t, clamp_range yr (c.state.clip_region.p0.y, c.state.clip_region.p1.y - 1)
          = some t := by
        simp only [clamp_range]
        rw [if_neg (by omega), if_neg (by omega)]
        by_cases hd : yr.1 > c.state.clip_region.p1.y - 1 ∨ yr.2 < c.state.clip_region.p0.y
        · rw [if_pos hd]
          exact ⟨none, rfl⟩
        · rw [if_neg hd]
          exact ⟨_, rfl⟩
      rcases hcr with ⟨t, ht⟩
      rw [ht]
      cases t
      · rfl
      · rfl
    · rw [if_pos (by omega)]
      rfl

/-- C2 witness: the amended theorem applied at concrete inputs, discharging
every hypothesis of each conjunct: an ordinary clamp, a panicking clamp on
an inverted source range, horizontal and vertical lines that silently draw
nothing (fixed coordinate outside, and disjoint clamp), panicking lines on
the reachable degenerate clip regions, and non-panicking lines on the
default canvas. -/
theorem C2_clamp_range_amended_witness :
    clamp_range (5, 10) (0, 7) = some (if (7:Int) < 5 ∨ (10:Int) < 0 then none
      else some (max (5:Int) 0, min (10:Int) 7))
    ∧ clamp_range (1, 0) (0, 7) = none
    ∧ Canvas.new.draw_horizontal_line (0, 10) (-5) = some Canvas.new
    ∧ Canvas.new.draw_horizontal_line (500, 600) 50 = some Canvas.new
    ∧ degenerateClipCanvas.draw_horizontal_line (0, 10) 50 = none
    ∧ (Canvas.new.draw_horizontal_line (0, 10) 50).isSome = true
    ∧ Canvas.new.draw_vertical_line (-5) (0, 10) = some Canvas.new
    ∧ Canvas.new.draw_vertical_line 50 (300, 400) = some Canvas.new
    ∧ degenerateClipCanvasY.draw_vertical_line 50 (0, 10) = none
    ∧ (Canvas.new.draw_vertical_line 50 (0, 10)).isSome = true :=
  ⟨C2_clamp_range_amended.1 (5, 10) (0, 7) (by decide) (by decide),
   C2_clamp_range_amended.2.1 (1, 0) (0, 7) (by decide),
   C2_clamp_range_amended.2.2.1 Canvas.new (0, 10) (-5) (by decide),
   C2_clamp_range_amended.2.2.2.1 Canvas.new (500, 600) 50 (by decide) (by decide)
     (by decide) (by decide) (by decide),
   C2_clamp_range_amended.2.2.2.2.1 degenerateClipCanvas (0, 10) 50 (by decide)
     (by decide) (by decide),
   C2_clamp_range_amended.2.2.2.2.2.1 Canvas.new (0, 10) 50 (by decide) (by decide),
   C2_clamp_range_amended.2.2.2.2.2.2.1 Canvas.new (-5) (0, 10) (by decide),
   C2_clamp_range_amended.2.2.2.2.2.2.2.1 Canvas.new 50 (300, 400) (by decide) (by decide)
     (by decide) (by decide) (by decide),
   C2_clamp_range_amended.2.2.2.2.2.2.2.2.1 degenerateClipCanvasY 50 (0, 10) (by decide)
     (by decide) (by decide),
   C2_clamp_range_amended.2.2.2.2.2.2.2.2.2 Canvas.new 50 (0, 10) (by decide) (by decide)⟩

/-- Canvas used in the C1 counterexample: the default canvas with fg_color
set to 0, matching the zeroed buffer contents. -/
def fgMatchesBufferCanvas : Canvas :=
  { Canvas.new with state := { Canvas.new.state with fg_color := 0 } }

/-- C1 counterexample: at a point inside the clip region whose pixel already
holds fg_color, set_pixel leaves the readback unchanged, so the pixel does
not change even though the point is inside: the changes-iff-inside
biconditional fails. -/
theorem C1_cex_set_pixel_rewrite_same_color :
    ¬ (((fgMatchesBufferCanvas.set_pixel { x := 0, y := 0 }).buffer ((0:Int) * WIDTH + 0)
          ≠ fgMatchesBufferCanvas.buffer ((0:Int) * WIDTH + 0))
        ↔ (Point.mk 0 0).is_inside fgMatchesBufferCanvas.state.clip_region) := by
  decide

/-- C1 amended: for a canvas whose clip region lies within the surface (the
invariant every reachable canvas satisfies), set_pixel changes the pixel
read back at p iff p is inside the clip region and the pixel did not
already hold fg_color; when p is inside, the pixel afterwards equals
fg_color; when p is outside, the canvas (buffer byte-for-byte included) is
unchanged; and no index other than that of p is ever modified. -/
theorem C1_set_pixel_spec (c : Canvas) (p : Point)
    (_hwf : c.state.clip_region.withinFull) :
    ((c.set_pixel p).buffer (p.y * WIDTH + p.x) ≠ c.buffer (p.y * WIDTH + p.x)
        ↔ p.is_inside c.state.clip_region ∧ c.buffer (p.y * WIDTH + p.x) ≠ c.state.fg_color)
    ∧ (p.is_inside c.state.clip_region →
        (c.set_pixel p).buffer (p.y * WIDTH + p.x) = c.state.fg_color)
    ∧ (¬ p.is_inside c.state.clip_region → c.set_pixel p = c)
    ∧ (∀ j, j ≠ p.y * WIDTH + p.x → (c.set_pixel p).buffer j = c.buffer j) := by
  by_cases h : p.is_inside c.state.clip_region
  · have hval : (c.set_pixel p).buffer (p.y * WIDTH + p.x) = c.state.fg_color := by
      simp [Canvas.set_pixel, h, Canvas.write_pixel]
    have hother : ∀ j, j ≠ p.y * WIDTH + p.x → (c.set_pixel p).buffer j = c.buffer j := by
      intro j hj
      simp [Canvas.set_pixel, h, Canvas.write_pixel, hj]
    refine ⟨?_, fun _ => hval, fun hc => absurd h hc, hother⟩
    rw [hval]
    constructor
    · intro hne
      exact ⟨h, fun he => hne he.symm⟩
    · rintro ⟨-, hne⟩
      exact fun he => hne he.symm
  · have heq : c.set_pixel p = c := by
      simp [Canvas.set_pixel, h]
    refine ⟨?_, fun hc => absurd hc h, fun _ => heq, ?_⟩
    · rw [heq]
      simp [h]
    · intro j _
      rw [heq]

/-- C1 witness: the amended theorem applied at concrete inputs, discharging
the well-formedness hypothesis and, in turn, the inside and outside
hypotheses. -/
theorem C1_set_pixel_spec_witness :
    ((Canvas.new.set_pixel { x := 1, y := 2 }).buffer ((2:Int) * WIDTH + 1)
      = Canvas.new.state.fg_color)
    ∧ (Canvas.new.set_pixel { x := -1, y := 0 } = Canvas.new) :=
  ⟨(C1_set_pixel_spec Canvas.new { x := 1, y := 2 } (by decide)).2.1 (by decide),
   (C1_set_pixel_spec Canvas.new { x := -1, y := 0 } (by decide)).2.2.1 (by decide)⟩

/-- Canvas used in the C6 witness: the default canvas with the clip region
restricted to the user area below the header band. -/
def userClipCanvas : Canvas :=
  { Canvas.new with state := { Canvas.new.state with clip_region := Rect.USER_CLIP } }

/-- C6: the compositing loop of draw_string never consults the clip region:
at any in-buffer index whose point lies outside the clip region, a fully
opaque coverage value overwrites the pixel with the low 24 bits of fg_color,
changing it whenever it held anything else.  (The rasterization that
produces the coverage is performed by the external font_kit service; any
glyph whose rasterized extent reaches outside the clip region yields such a
coverage buffer.) -/
theorem C6_draw_string_ignores_clip (c : Canvas) (coverage : Int → Nat) (p : Point)
    (_hout : ¬ p.is_inside c.state.clip_region)
    (hlo : 0 ≤ p.y * WIDTH + p.x) (hhi : p.y * WIDTH + p.x < BUFSZ)
    (hcov : coverage (p.y * WIDTH + p.x) % 256 = 255)
    (hne : c.buffer (p.y * WIDTH + p.x) ≠ c.state.fg_color % 2 ^ 24) :
    (c.draw_string_composite coverage).buffer (p.y * WIDTH + p.x) = c.state.fg_color % 2 ^ 24
    ∧ (c.draw_string_composite coverage).buffer (p.y * WIDTH + p.x)
        ≠ c.buffer (p.y * WIDTH + p.x) := by
  have hblend : ∀ dst fg : Nat, blendPixel dst 255 fg = fg % 2 ^ 24 := by
    intro dst fg
    unfold blendPixel
    norm_num
    omega
  have hval : (c.draw_string_composite coverage).buffer (p.y * WIDTH + p.x)
      = c.state.fg_color % 2 ^ 24 := by
    simp only [Canvas.draw_string_composite, if_pos (And.intro hlo hhi), hcov]
    exact hblend _ _
  refine ⟨hval, ?_⟩
  rw [hval]
  exact fun he => hne he.symm

/-- C6 witness: the theorem applied to a concrete canvas whose clip region
is the user area, at the top-left corner pixel (inside the header band,
outside the clip region), with a fully opaque coverage buffer. -/
theorem C6_draw_string_ignores_clip_witness :
    (userClipCanvas.draw_string_composite (fun _ => 255)).buffer ((0:Int) * WIDTH + 0)
      = userClipCanvas.state.fg_color % 2 ^ 24
    ∧ (userClipCanvas.draw_string_composite (fun _ => 255)).buffer ((0:Int) * WIDTH + 0)
      ≠ userClipCanvas.buffer ((0:Int) * WIDTH + 0) :=
  C6_draw_string_ignores_clip userClipCanvas (fun _ => 255) { x := 0, y := 0 }
    (by decide) (by decide) (by decide) (by decide) (by decide)

/-- Drawing a pixel leaves the canvas state untouched. -/
theorem set_pixel_state (c : Canvas) (p : Point) : (c.set_pixel p).state = c.state := by
  unfold Canvas.set_pixel
  split
  · rfl
  · rfl

/-- Drawing a line leaves the canvas state untouched. -/
theorem draw_line_state (c : Canvas) (s t : Point) (bres : List (Int × Int)) :
    (c.draw_line s t bres).state = c.state := by
  unfold Canvas.draw_line
  induction bres generalizing c with
  | nil => rfl
  | cons q qs ih =>
    rw [List.foldl_cons, ih, set_pixel_state]

/-- Drawing a horizontal line, when it returns, leaves the state
untouched. -/
theorem draw_horizontal_line_state (c : Canvas) (xr : Int × Int) (y : Int) (c' : Canvas)
    (h : c.draw_horizontal_line xr y = some c') : c'.state = c.state := by
  simp only [Canvas.draw_horizontal_line] at h
  split at h
  · cases h
    rfl
  · split at h
    · cases h
    · cases h
      rfl
    · cases h
      rfl

/-- Filling a rectangle, when it returns, leaves the state untouched. -/
theorem fill_rect_state (c : Canvas) (b : Rect) (c' : Canvas)
    (h : c.fill_rect b = some c') : c'.state = c.state := by
  unfold Canvas.fill_rect at h
  cases hc : b.clip_to c.state.clip_region with
  | none =>
    rw [hc] at h
    cases h
  | some b2 =>
    rw [hc] at h
    cases h
    rfl

/-- Folding horizontal-line draws over a list, when it returns, leaves the
state untouched. -/
theorem foldlM_hline_state (l : List (Nat × (Int × Int))) (g : Nat → Int) (c c' : Canvas)
    (h : l.foldlM (fun canvas li => canvas.draw_horizontal_line (li.2.1, li.2.2) (g li.1)) c
      = some c') : c'.state = c.state := by
  induction l generalizing c with
  | nil =>
    cases h
    rfl
  | cons q qs ih =>
    rw [List.foldlM_cons] at h
    cases hd : c.draw_horizontal_line (q.2.1, q.2.2) (g q.1) with
    | none =>
      rw [hd] at h
      cases h
    | some c2 =>
      rw [hd] at h
      simp only [Option.bind_eq_bind, Option.some_bind] at h
      rw [ih c2 h, draw_horizontal_line_state c _ _ c2 hd]

/-- Filling a circle, when it returns, leaves the state untouched. -/
theorem fill_circle_state (c : Canvas) (center : Point) (radius : Nat)
    (pts : List (Int × Int)) (c' : Canvas)
    (h : c.fill_circle center radius pts = some c') : c'.state = c.state := by
  simp only [Canvas.fill_circle] at h
  split at h
  · cases h
  · rename_i lines heq
    have h2 := foldlM_hline_state lines.enum
      (fun k => center.y - (radius : Int) + (k : Int)) _ c' h
    rw [h2]
    split
    · rw [set_pixel_state]
    · rfl

/-- C10: each Clear entry point draws its shape with the colors swapped and
swaps back, so on return the whole canvas state, fg_color and bg_color
included, equals its pre-call value (even when the inner drawing panics the
state that reached it was only transiently swapped); and swap_colors
composed with itself is the identity on CanvasState. -/
theorem C10_clear_entry_points_restore_colors :
    (∀ (x y : Nat) (c : Canvas), (vexDisplayPixelClear x y c).state = c.state)
    ∧ (∀ (x1 y1 x2 y2 : Int) (bres : List (Int × Int)) (c : Canvas),
        (vexDisplayLineClear x1 y1 x2 y2 bres c).state = c.state)
    ∧ (∀ (x1 y1 x2 y2 : Int) (c : Canvas),
        ((vexDisplayRectClear x1 y1 x2 y2 c).map (fun c2 => c2.state)).getD c.state = c.state)
    ∧ (∀ (xc yc radius : Int) (pts : List (Int × Int)) (c : Canvas),
        ((vexDisplayCircleClear xc yc radius pts c).map (fun c2 => c2.state)).getD c.state
          = c.state)
    ∧ (∀ s : CanvasState, s.swap_colors.swap_colors = s) := by
  refine ⟨?_, ?_, ?_, ?_, ?_⟩
  · intro x y c
    have h1 := set_pixel_state (c.swapColors)
      { x := u32_as_i32 x, y := u32_as_i32 y + HEADER_HEIGHT }
    calc (vexDisplayPixelClear x y c).state
        = ((c.swapColors).set_pixel
            { x := u32_as_i32 x, y := u32_as_i32 y + HEADER_HEIGHT }).state.swap_colors := rfl
      _ = (c.swapColors).state.swap_colors := by rw [h1]
      _ = c.state := rfl
  · intro x1 y1 x2 y2 bres c
    have h1 := draw_line_state (c.swapColors) { x := x1, y := y1 + HEADER_HEIGHT }
      { x := x2, y := y2 + HEADER_HEIGHT } bres
    calc (vexDisplayLineClear x1 y1 x2 y2 bres c).state
        = ((c.swapColors).draw_line { x := x1, y := y1 + HEADER_HEIGHT }
            { x := x2, y := y2 + HEADER_HEIGHT } bres).state.swap_colors := rfl
      _ = (c.swapColors).state.swap_colors := by rw [h1]
      _ = c.state := rfl
  · intro x1 y1 x2 y2 c
    unfold vexDisplayRectClear
    cases hr : (c.swapColors).fill_rect (Rect.from_sdk x1 y1 x2 y2) with
    | none => rfl
    | some c2 =>
      have h1 := fill_rect_state _ _ _ hr
      calc ((some (c2.swapColors)).map (fun c3 => c3.state)).getD c.state
          = c2.state.swap_colors := rfl
        _ = (c.swapColors).state.swap_colors := by rw [h1]
        _ = c.state := rfl
  · intro xc yc radius pts c
    unfold vexDisplayCircleClear
    cases hr : (c.swapColors).fill_circle { x := xc, y := yc + HEADER_HEIGHT }
        (max radius 0).toNat pts with
    | none => rfl
    | some c2 =>
      have h1 := fill_circle_state _ _ _ _ _ hr
      calc ((some (c2.swapColors)).map (fun c3 => c3.state)).getD c.state
          = c2.state.swap_colors := rfl
        _ = (c.swapColors).state.swap_colors := by rw [h1]
        _ = c.state := rfl
  · intro s
    rfl

/-- Bounds of a successful clamp. -/
theorem clampI_bounds {x lo hi v : Int} (h : clampI x lo hi = some v) :
    lo ≤ v ∧ v ≤ hi := by
  unfold clampI at h
  split at h
  · cases h
  · cases h
    rename_i hcond
    exact ⟨le_max_left _ _, max_le (by omega) (min_le_right _ _)⟩

/-- Bounds of a successfully clamped point: both coordinates land in the
clamp intervals of the region. -/
theorem clamp_to_bounds {p : Point} {region : Rect} {q : Point}
    (h : p.clamp_to region = some q) :
    region.p0.x ≤ q.x ∧ q.x ≤ region.p1.x - 1
    ∧ region.p0.y ≤ q.y ∧ q.y ≤ region.p1.y - 1 := by
  unfold Point.clamp_to at h
  cases hx : clampI p.x region.p0.x (region.p1.x - 1) with
  | none =>
    rw [hx] at h
    cases h
  | some vx =>
    rw [hx] at h
    cases hy : clampI p.y region.p0.y (region.p1.y - 1) with
    | none =>
      rw [hy] at h
      cases h
    | some vy =>
      rw [hy] at h
      cases h
      exact ⟨(clampI_bounds hx).1, (clampI_bounds hx).2,
        (clampI_bounds hy).1, (clampI_bounds hy).2⟩

/-- Bounds of a successfully clipped rectangle: all four corner coordinates
land in the clamp intervals of the region. -/
theorem clip_to_bounds {r region b : Rect} (h : r.clip_to region = some b) :
    (region.p0.x ≤ b.p0.x ∧ b.p0.x ≤ region.p1.x - 1
      ∧ region.p0.y ≤ b.p0.y ∧ b.p0.y ≤ region.p1.y - 1)
    ∧ (region.p0.x ≤ b.p1.x ∧ b.p1.x ≤ region.p1.x - 1
      ∧ region.p0.y ≤ b.p1.y ∧ b.p1.y ≤ region.p1.y - 1) := by
  unfold Rect.clip_to at h
  cases ha : r.p0.clamp_to region with
  | none =>
    rw [ha] at h
    cases h
  | some a =>
    rw [ha] at h
    cases hb2 : r.p1.clamp_to region with
    | none =>
      rw [hb2] at h
      cases h
    | some b2 =>
      rw [hb2] at h
      cases h
      exact ⟨clamp_to_bounds ha, clamp_to_bounds hb2⟩

/-- The write aimed at destination (x, y) of the clipped rectangle is in the
copy_rect write list, carrying the source value read at offsets counted from
the min corner of the clipped rectangle. -/
theorem mem_gridWrites {b : Rect} {source : Nat → Nat} {stride : Nat} {x y : Int}
    (hx1 : b.p0.x ≤ x) (hx2 : x < b.p1.x) (hy1 : b.p0.y ≤ y) (hy2 : y < b.p1.y) :
    (y * WIDTH + x, source ((y - b.p0.y).toNat * stride + (x - b.p0.x).toNat))
      ∈ gridWrites b source stride := by
  unfold gridWrites
  rw [List.mem_flatMap]
  refine ⟨((y - b.p0.y).toNat, y), ?_, ?_⟩
  · rw [mem_enum_intRangeEx]
    exact ⟨by omega, by omega⟩
  · rw [List.mem_map]
    refine ⟨((x - b.p0.x).toNat, x), ?_, rfl⟩
    rw [mem_enum_intRangeEx]
    exact ⟨by omega, by omega⟩

/-- Enumerated lists inherit pairwise distinctness of their elements. -/
theorem pairwise_snd_enum {α : Type} {l : List α} {R : α → α → Prop}
    (h : l.Pairwise R) : l.enum.Pairwise fun a b => R a.2 b.2 := by
  have hmap : List.Pairwise R (List.map Prod.snd l.enum) := by
    rw [List.enum_map_snd]
    exact h
  exact List.pairwise_map.mp hmap

/-- The copy_rect write list targets pairwise distinct buffer indices
whenever the columns of the clipped rectangle lie inside one buffer row. -/
theorem pairwise_keys_gridWrites {b : Rect} {source : Nat → Nat} {stride : Nat}
    (hx0 : 0 ≤ b.p0.x) (hx1 : b.p1.x ≤ WIDTH) :
    (gridWrites b source stride).Pairwise fun w1 w2 => w1.1 ≠ w2.1 := by
  have hW : WIDTH = 480 := rfl
  unfold gridWrites
  rw [List.pairwise_flatMap]
  constructor
  · intro ri _
    rw [List.pairwise_map]
    have hcols := pairwise_snd_enum (nodup_intRangeEx b.p0.x b.p1.x)
    exact hcols.imp fun hne he => hne (by omega)
  · have hrows := pairwise_snd_enum (nodup_intRangeEx b.p0.y b.p1.y)
    refine hrows.imp ?_
    intro r1 r2 hne w1 hw1 w2 hw2
    rw [List.mem_map] at hw1 hw2
    obtain ⟨c1, hc1, rfl⟩ := hw1
    obtain ⟨c2, hc2, rfl⟩ := hw2
    obtain ⟨i1, x1⟩ := c1
    obtain ⟨i2, x2⟩ := c2
    rw [mem_enum_intRangeEx] at hc1 hc2
    intro he
    simp only at he
    rw [hW] at he
    rw [hW] at hx1
    have hb1 : b.p0.x ≤ x1 ∧ x1 < b.p1.x := by omega
    have hb2 : b.p0.x ≤ x2 ∧ x2 < b.p1.x := by omega
    exact hne (by omega)

/-- C3 counterexample: copying with bounds whose min corner is clipped
inward (min x is -1, clipped to 0) writes source index 0 to destination
(0, 0), whereas alignment to the top-left of the unclipped rectangle would
require source index 1 there, and the two source values differ: clipping
does shift the source-read alignment. -/
theorem C3_cex_clip_shifts_source_alignment :
    (Canvas.new.copy_rect { p0 := { x := -1, y := 0 }, p1 := { x := 2, y := 1 } }
        (fun i => i) 3).map (fun c => c.buffer ((0:Int) * WIDTH + 0)) = some ((fun i => i) 0)
    ∧ (((0:Int) - 0).toNat * 3 + ((0:Int) - (-1:Int)).toNat) = 1
    ∧ (fun (i : Nat) => i) 0 ≠ (fun (i : Nat) => i) 1 := by
  refine ⟨?_, by decide, by decide⟩
  decide

/-- C3 amended: copy_rect reads the source at row and column offsets counted
from the min corner of the clipped rectangle.  Consequently, when clipping moves
the min corner inward, the source pixel delivered to a fixed destination
coordinate is the one aligned to the clipped origin, not to the top-left of the unclipped
rectangle: the alignment shifts by exactly the clip
displacement. -/
theorem C3_copy_rect_reads_from_clipped_origin (c : Canvas) (bounds : Rect)
    (source : Nat → Nat) (stride : Nat) (b : Rect) (x y : Int)
    (hwf : c.state.clip_region.withinFull)
    (hb : bounds.clip_to c.state.clip_region = some b)
    (hx1 : b.p0.x ≤ x) (hx2 : x < b.p1.x) (hy1 : b.p0.y ≤ y) (hy2 : y < b.p1.y) :
    ∃ c', c.copy_rect bounds source stride = some c'
      ∧ c'.buffer (y * WIDTH + x)
        = source ((y - b.p0.y).toNat * stride + (x - b.p0.x).toNat) := by
  obtain ⟨hcwf1, hcwf2, hcwf3, hcwf4⟩ := hwf
  have hcb := clip_to_bounds hb
  have hkx0 : 0 ≤ b.p0.x := by omega
  have hkx1 : b.p1.x ≤ WIDTH := by omega
  refine ⟨{ c with buffer := applyWrites c.buffer (gridWrites b source stride) }, ?_, ?_⟩
  · unfold Canvas.copy_rect
    rw [hb]
    rfl
  · exact applyWrites_mem _ _ _ _ (pairwise_keys_gridWrites hkx0 hkx1)
      (mem_gridWrites hx1 hx2 hy1 hy2)

/-- C3 witness: the amended theorem applied to the default canvas with
bounds clipped on the left only, discharging every hypothesis at destination
(1, 0) of the clipped rectangle. -/
theorem C3_copy_rect_reads_from_clipped_origin_witness :
    ∃ c', Canvas.new.copy_rect { p0 := { x := -1, y := 0 }, p1 := { x := 2, y := 1 } }
        (fun i => i + 7) 3 = some c'
      ∧ c'.buffer ((0:Int) * WIDTH + 1)
        = (fun i => i + 7) ((((0:Int) - 0).toNat) * 3 + (((1:Int) - 0).toNat)) :=
  C3_copy_rect_reads_from_clipped_origin Canvas.new
    { p0 := { x := -1, y := 0 }, p1 := { x := 2, y := 1 } } (fun i => i + 7) 3
    { p0 := { x := 0, y := 0 }, p1 := { x := 2, y := 1 } } 1 0
    (by decide) (by decide) (by decide) (by decide) (by decide) (by decide)

end V5
